import Mathlib

/-
Verification of the mantle-forge CLI (src/index.js) against its
natural-language specification.

The development shallowly embeds the program's logic in Lean:

* `calculateBranchHash` / `ethersId` — the branch-identity function,
  together with a complete executable embedding of Keccak-256 (the hash
  used by `ethers.id`), validated below on standard test vectors;
* `parseKeyValue` / `setSecretAction` — the `secrets set` KEY=VALUE
  parsing (JavaScript `split('=')` followed by `join('=')` of the tail);
* `stripAnsi` / `padWithAnsi` — the visible-width padding helpers of the
  `compare` table renderer;
* `compareAction`, `volumeVerdict`, `rateVerdict`, `metricsRows` — the
  comparison engine over two fetched stats snapshots;
* the per-command error handlers and the exit-code discipline.

JavaScript numbers arriving from JSON are modelled as rationals (`ℚ`),
with an `Option` layer for absent (`undefined`) fields; JavaScript
string falsiness is the emptiness test; machine strings are Lean
`String`s (lists of Unicode scalar values).
-/

set_option maxRecDepth 100000

namespace MantleForge

/-! ## Keccak-256 (the hash behind `ethers.id`) -/

def mask64 : Nat := 2 ^ 64 - 1

/-- Rotate a 64-bit lane (a natural below `2^64`) left by `n < 64` bits. -/
def rot64 (v n : Nat) : Nat :=
  ((v <<< n) &&& mask64) ||| (v >>> (64 - n))

/-- Round constants of Keccak-f[1600]. -/
def keccakRC : List Nat :=
  [0x1, 0x8082,
   0x800000000000808a, 0x8000000080008000,
   0x808b, 0x80000001,
   0x8000000080008081, 0x8000000000008009,
   0x8a, 0x88,
   0x80008009, 0x8000000a,
   0x8000808b, 0x800000000000008b,
   0x8000000000008089, 0x8000000000008003,
   0x8000000000008002, 0x8000000000000080,
   0x800a, 0x800000008000000a,
   0x8000000080008081, 0x8000000000008080,
   0x80000001, 0x8000000080008008]

/-- Rho rotation offsets, given per row `y` of the state. -/
def rhoRows : List (List Nat) :=
  [[0, 1, 62, 28, 27],
   [36, 44, 6, 55, 20],
   [3, 10, 43, 25, 39],
   [41, 45, 15, 21, 8],
   [18, 2, 61, 56, 14]]

/-- Rho rotation offsets, indexed by `x + 5 * y`. -/
def rhoOffsets : List Nat := rhoRows.foldr (· ++ ·) []

/-- Lane at column `x`, row `y` (indices taken mod 5) of a 25-lane state. -/
def lane (s : List Nat) (x y : Nat) : Nat := s.getD (x % 5 + 5 * (y % 5)) 0

def theta (s : List Nat) : List Nat :=
  let c := fun x => lane s x 0 ^^^ lane s x 1 ^^^ lane s x 2 ^^^ lane s x 3 ^^^ lane s x 4
  let d := fun x => c ((x + 4) % 5) ^^^ rot64 (c ((x + 1) % 5)) 1
  (List.range 25).map fun i => s.getD i 0 ^^^ d (i % 5)

def rhoPi (s : List Nat) : List Nat :=
  (List.range 25).map fun i =>
    let X := i % 5
    let Y := i / 5
    let x := (X + 3 * Y) % 5
    let y := X
    rot64 (lane s x y) (rhoOffsets.getD (x + 5 * y) 0)

def chi (s : List Nat) : List Nat :=
  (List.range 25).map fun i =>
    let X := i % 5
    let Y := i / 5
    s.getD i 0 ^^^ ((lane s (X + 1) Y ^^^ mask64) &&& lane s (X + 2) Y)

def keccakRound (s : List Nat) (rc : Nat) : List Nat :=
  let s := chi (rhoPi (theta s))
  s.set 0 (s.getD 0 0 ^^^ rc)

def keccakF (s : List Nat) : List Nat := keccakRC.foldl keccakRound s

/-- Keccak (legacy) multi-rate padding for rate 136: `0x01 … 0x80` (`0x81` if one byte). -/
def keccakPad (len : Nat) : List Nat :=
  let p := 136 - len % 136
  if p = 1 then [0x81] else 0x01 :: List.replicate (p - 2) 0 ++ [0x80]

/-- Little-endian 64-bit lane read from bytes `8*j .. 8*j+7` of a block. -/
def laneOfBlock (blk : List Nat) (j : Nat) : Nat :=
  (List.range 8).foldr (fun k acc => acc * 256 + blk.getD (8 * j + k) 0) 0

def absorbBlock (s blk : List Nat) : List Nat :=
  keccakF ((List.range 25).map fun j =>
    s.getD j 0 ^^^ (if j < 17 then laneOfBlock blk j else 0))

/-- Split a byte sequence into 136-byte rate blocks (fuel-guarded, structural). -/
def chunks136 : Nat → List Nat → List (List Nat)
  | 0, _ => []
  | _ + 1, [] => []
  | fuel + 1, b :: rest => (b :: rest).take 136 :: chunks136 fuel ((b :: rest).drop 136)

/-- Keccak-256 of a byte sequence (bytes as naturals below 256). -/
def keccak256 (msg : List Nat) : List Nat :=
  let padded := msg ++ keccakPad msg.length
  let s := (chunks136 padded.length padded).foldl absorbBlock (List.replicate 25 0)
  (List.range 32).map fun k => (s.getD (k / 8) 0 >>> (8 * (k % 8))) % 256

/-! ## UTF-8 encoding and lowercase hex rendering -/

/-- UTF-8 encoding of one character (by its Unicode scalar value). -/
def utf8Char (c : Char) : List Nat :=
  let n := c.toNat
  if n < 0x80 then [n]
  else if n < 0x800 then [0xC0 ||| (n >>> 6), 0x80 ||| (n &&& 0x3F)]
  else if n < 0x10000 then
    [0xE0 ||| (n >>> 12), 0x80 ||| ((n >>> 6) &&& 0x3F), 0x80 ||| (n &&& 0x3F)]
  else
    [0xF0 ||| (n >>> 18), 0x80 ||| ((n >>> 12) &&& 0x3F),
     0x80 ||| ((n >>> 6) &&& 0x3F), 0x80 ||| (n &&& 0x3F)]

def utf8Encode (s : List Char) : List Nat := s.foldr (fun c acc => utf8Char c ++ acc) []

def lowerHexDigits : List Char := "0123456789abcdef".data

def hexDigit (n : Nat) : Char := lowerHexDigits.getD n '0'

/-- Two lowercase hex digits per byte, most significant first (ethers hexlify). -/
def toHexChars : List Nat → List Char
  | [] => []
  | b :: bs => hexDigit (b / 16 % 16) :: hexDigit (b % 16) :: toHexChars bs

/-- `ethers.id`: Keccak-256 of the UTF-8 bytes of a string, rendered as a
0x-prefixed lowercase hex string. -/
def ethersId (s : String) : String :=
  "0x" ++ String.mk (toHexChars (keccak256 (utf8Encode s.data)))

/-- Source: `function calculateBranchHash(repo_url, branch_name)`,
src/index.js — `ethers.id(repo_url + "/" + branch_name)`. -/
def calculateBranchHash (repo_url branch_name : String) : String :=
  ethersId (repo_url ++ "/" ++ branch_name)

/-! ### Validation of the Keccak embedding on standard test vectors -/

/-- Known-answer test: Keccak-256 of the empty string. -/
theorem keccak256_empty_vector :
    keccak256 (utf8Encode "".data) =
      [0xc5, 0xd2, 0x46, 0x01, 0x86, 0xf7, 0x23, 0x3c, 0x92, 0x7e, 0x7d, 0xb2,
       0xdc, 0xc7, 0x03, 0xc0, 0xe5, 0x00, 0xb6, 0x53, 0xca, 0x82, 0x27, 0x3b,
       0x7b, 0xfa, 0xd8, 0x04, 0x5d, 0x85, 0xa4, 0x70] := by decide

/-- Known-answer test: Keccak-256 of "abc". -/
theorem keccak256_abc_vector :
    keccak256 (utf8Encode "abc".data) =
      [0x4e, 0x03, 0x65, 0x7a, 0xea, 0x45, 0xa9, 0x4f, 0xc7, 0xd4, 0x7b, 0xa8,
       0x26, 0xc8, 0xd6, 0x67, 0xc0, 0xd1, 0xe6, 0xe3, 0x3a, 0x64, 0xa0, 0x36,
       0xec, 0x44, 0xf5, 0x8f, 0xa1, 0x2d, 0x6c, 0x45] := by decide

/-- Sanity: UTF-8 encoding of a string with multi-byte characters. -/
theorem utf8Encode_multibyte_vector :
    utf8Encode "café".data = [99, 97, 102, 195, 169] := by decide

/-! ### Formatting lemmas for the identity string -/

theorem hexDigit_mem (n : Nat) : hexDigit n ∈ lowerHexDigits := by
  unfold hexDigit
  by_cases h : n < 16
  · interval_cases n <;> decide
  · rw [List.getD_eq_default]
    · decide
    · have h16 : lowerHexDigits.length = 16 := by decide
      omega

theorem toHexChars_length (bs : List Nat) : (toHexChars bs).length = 2 * bs.length := by
  induction bs with
  | nil => rfl
  | cons b bs ih => simp [toHexChars, ih]; omega

theorem toHexChars_mem (bs : List Nat) : ∀ c ∈ toHexChars bs, c ∈ lowerHexDigits := by
  induction bs with
  | nil => intro c hc; simp [toHexChars] at hc
  | cons b bs ih =>
      intro c hc
      simp only [toHexChars, List.mem_cons] at hc
      rcases hc with h | h | h
      · exact h ▸ hexDigit_mem _
      · exact h ▸ hexDigit_mem _
      · exact ih c h

theorem keccak256_length (msg : List Nat) : (keccak256 msg).length = 32 := by
  simp [keccak256]

/-- Sanity: the identity of a concrete `(repo_url, branch_name)` pair,
cross-checked against an independent Keccak-256 implementation. -/
theorem calculateBranchHash_vector :
    calculateBranchHash "https://github.com/user/repo.git" "main" =
      "0xdc86be019b14ef2eed4fa74f59720d9abe4dded1eabeb63a11055e29abacf935" := by decide

/-- C1: for every pair of strings, `calculateBranchHash` returns exactly the
Keccak-256 hash of the UTF-8 bytes of the concatenation
`"{repo_url}/{branch_name}"`, formatted as a 0x-prefixed, lowercase,
64-hex-digit string, and it is a pure function: identical inputs always
yield the identical identity. -/
theorem calculateBranchHash_keccak_format (r b : String) :
    calculateBranchHash r b =
      "0x" ++ String.mk (toHexChars (keccak256 (utf8Encode (r.data ++ '/' :: b.data)))) ∧
    (calculateBranchHash r b).data.take 2 = ['0', 'x'] ∧
    ((calculateBranchHash r b).data.drop 2).length = 64 ∧
    (∀ c ∈ (calculateBranchHash r b).data.drop 2, c ∈ lowerHexDigits) ∧
    (∀ r2 b2 : String, r2 = r → b2 = b → calculateBranchHash r2 b2 = calculateBranchHash r b) := by
  have hcat : (r ++ "/" ++ b).data = r.data ++ '/' :: b.data := by
    rw [String.data_append, String.data_append, List.append_assoc]; rfl
  have h1 : calculateBranchHash r b =
      "0x" ++ String.mk (toHexChars (keccak256 (utf8Encode (r.data ++ '/' :: b.data)))) := by
    unfold calculateBranchHash ethersId
    rw [hcat]
  have hdata : (calculateBranchHash r b).data =
      '0' :: 'x' :: toHexChars (keccak256 (utf8Encode (r.data ++ '/' :: b.data))) := by
    rw [h1, String.data_append]; rfl
  refine ⟨h1, ?_, ?_, ?_, ?_⟩
  · rw [hdata]; simp
  · rw [hdata]
    show (toHexChars (keccak256 (utf8Encode (r.data ++ '/' :: b.data)))).length = 64
    rw [toHexChars_length, keccak256_length]
  · rw [hdata]
    intro c hc
    exact toHexChars_mem _ c hc
  · intro r2 b2 hr hb; rw [hr, hb]

/-- Witness for C1 at a concrete input, with the determinism hypotheses
discharged. -/
theorem calculateBranchHash_keccak_format_witness :
    ((calculateBranchHash "https://github.com/user/repo.git" "main").data.drop 2).length = 64 ∧
    calculateBranchHash "https://github.com/user/repo.git" "main" =
      calculateBranchHash "https://github.com/user/repo.git" "main" :=
  ⟨(calculateBranchHash_keccak_format "https://github.com/user/repo.git" "main").2.2.1,
   (calculateBranchHash_keccak_format "https://github.com/user/repo.git" "main").2.2.2.2
     "https://github.com/user/repo.git" "main" rfl rfl⟩

/-! ## The secrets set KEY=VALUE parsing (C2) -/

/-- JavaScript `str.split('=')` on the character list of a string:
`""` splits to `[""]`, and separators at the ends produce empty fields. -/
def splitOnEq : List Char → List (List Char)
  | [] => [[]]
  | c :: rest =>
      if c = '=' then [] :: splitOnEq rest
      else
        match splitOnEq rest with
        | [] => [[c]]
        | p :: ps => (c :: p) :: ps

/-- JavaScript `parts.join('=')`. -/
def joinEq : List (List Char) → List Char
  | [] => []
  | [x] => x
  | x :: xs => x ++ '=' :: joinEq xs

/-- Source: the `secrets set` action, src/index.js — the key is the first
`split('=')` field, the value is the `join('=')` of the remaining fields,
and an empty key or value is rejected (`none`). -/
def parseKeyValue (s : String) : Option (String × String) :=
  match splitOnEq s.data with
  | [] => none
  | key :: valueParts =>
      let value := joinEq valueParts
      if key = [] ∨ value = [] then none
      else some (String.mk key, String.mk value)

/-- The POST body of `secrets set` (src/index.js). -/
structure SecretRequest where
  repo_url : String
  branch_name : String
  key : String
  value : String
deriving DecidableEq

/-- The network request the `secrets set` action sends; `none` means the
argument was rejected locally and no request is made. -/
def setSecretAction (repo branch arg : String) : Option SecretRequest :=
  (parseKeyValue arg).map fun kv => ⟨repo, branch, kv.1, kv.2⟩

theorem splitOnEq_ne_nil (l : List Char) : splitOnEq l ≠ [] := by
  cases l with
  | nil => simp [splitOnEq]
  | cons c rest =>
      simp only [splitOnEq]
      split
      · simp
      · split <;> simp

theorem joinEq_cons_head (c : Char) (p : List Char) (ps : List (List Char)) :
    joinEq ((c :: p) :: ps) = c :: joinEq (p :: ps) := by
  cases ps with
  | nil => rfl
  | cons q qs => simp [joinEq]

theorem joinEq_splitOnEq (l : List Char) : joinEq (splitOnEq l) = l := by
  induction l with
  | nil => rfl
  | cons c rest ih =>
      simp only [splitOnEq]
      by_cases h : c = '='
      · subst h
        rw [if_pos rfl]
        cases hs : splitOnEq rest with
        | nil => exact absurd hs (splitOnEq_ne_nil rest)
        | cons p ps =>
            rw [hs] at ih
            simp [joinEq, ih]
      · rw [if_neg h]
        cases hs : splitOnEq rest with
        | nil => exact absurd hs (splitOnEq_ne_nil rest)
        | cons p ps =>
            rw [hs] at ih
            show joinEq ((c :: p) :: ps) = c :: rest
            rw [joinEq_cons_head, ih]

theorem splitOnEq_no_eq (l : List Char) (h : '=' ∉ l) : splitOnEq l = [l] := by
  induction l with
  | nil => rfl
  | cons c rest ih =>
      have hc : c ≠ '=' := fun e => h (e ▸ List.mem_cons_self _ _)
      have hr : '=' ∉ rest := fun m => h (List.mem_cons_of_mem _ m)
      simp only [splitOnEq, if_neg hc, ih hr]

theorem splitOnEq_append (k v : List Char) (hk : '=' ∉ k) :
    splitOnEq (k ++ '=' :: v) = k :: splitOnEq v := by
  induction k with
  | nil => simp [splitOnEq]
  | cons c ks ih =>
      have hc : c ≠ '=' := fun e => hk (e ▸ List.mem_cons_self _ _)
      have hks : '=' ∉ ks := fun m => hk (List.mem_cons_of_mem _ m)
      simp only [List.cons_append, splitOnEq, List.append_eq, if_neg hc, ih hks]

/-- C2: the raw `secrets set` argument is split on the first `=` only —
everything after it, including further `=` characters, belongs to the value —
and an empty key or value (e.g. no `=` at all) is rejected locally with no
network request. -/
theorem secretsSet_firstEq_split (repo branch : String) (k v s : List Char)
    (hk : '=' ∉ k) (hs : '=' ∉ s) :
    setSecretAction repo branch (String.mk (k ++ '=' :: v)) =
      (if k = [] ∨ v = [] then none
       else some ⟨repo, branch, String.mk k, String.mk v⟩) ∧
    setSecretAction repo branch (String.mk s) = none := by
  constructor
  · unfold setSecretAction parseKeyValue
    rw [show (String.mk (k ++ '=' :: v)).data = k ++ '=' :: v from rfl,
      splitOnEq_append k v hk]
    show (let value := joinEq (splitOnEq v);
          if k = [] ∨ value = [] then none
          else some (String.mk k, String.mk value)).map _ = _
    rw [joinEq_splitOnEq]
    by_cases h : k = [] ∨ v = []
    · simp [h]
    · simp [h]
  · unfold setSecretAction parseKeyValue
    rw [show (String.mk s).data = s from rfl, splitOnEq_no_eq s hs]
    simp [joinEq]

/-- Witness for C2: `FOO=bar=baz` parses to key `FOO`, value `bar=baz`;
`FOO` (no `=`) is rejected with no request. -/
theorem secretsSet_firstEq_split_witness :
    ('=' ∉ ['F', 'O', 'O']) ∧
    setSecretAction "r" "main" "FOO=bar=baz" =
      some ⟨"r", "main", "FOO", "bar=baz"⟩ ∧
    setSecretAction "r" "main" "FOO" = none := by
  have h := secretsSet_firstEq_split "r" "main" ['F', 'O', 'O']
    ['b', 'a', 'r', '=', 'b', 'a', 'z'] ['F', 'O', 'O'] (by decide) (by decide)
  refine ⟨by decide, ?_, h.2⟩
  have h1 := h.1
  rw [if_neg (by decide)] at h1
  exact h1

/-! ## ANSI stripping and visible-width padding (compare table renderer) -/

/-- Parameter characters of an ANSI SGR sequence: digits and semicolons
(the `[0-9;]*` part of the regex in `stripAnsi`, src/index.js). -/
def isParamChar (c : Char) : Bool :=
  (decide ('0' ≤ c) && decide (c ≤ '9')) || decide (c = ';')

/-- After `ESC [`, consume parameter characters up to the terminating `m`;
`some rest` is the remainder after the match, `none` if the regex fails. -/
def skipParams : List Char → Option (List Char)
  | [] => none
  | c :: rest =>
      if c = 'm' then some rest
      else if isParamChar c then skipParams rest else none

/-- Match the part of the regex after the escape character: a literal `[`,
then `[0-9;]*`, then `m`. -/
def ansiSeq : List Char → Option (List Char)
  | [] => none
  | c :: rest => if c = '[' then skipParams rest else none

theorem skipParams_length : ∀ (l r : List Char), skipParams l = some r → r.length < l.length := by
  intro l
  induction l with
  | nil => intro r h; simp [skipParams] at h
  | cons c rest ih =>
      intro r h
      simp only [skipParams] at h
      split at h
      · injection h with h2; subst h2; simp
      · split at h
        · exact Nat.lt_succ_of_lt (ih r h)
        · simp at h

theorem ansiSeq_length : ∀ (l r : List Char), ansiSeq l = some r → r.length < l.length := by
  intro l r h
  cases l with
  | nil => simp [ansiSeq] at h
  | cons c rest =>
      simp only [ansiSeq] at h
      split at h
      · exact Nat.lt_succ_of_lt (skipParams_length rest r h)
      · simp at h

/-- Fuel-guarded worker for `stripAnsi`: scan the characters, removing every
match of the pattern `ESC [ [0-9;]* m`; on a failed match the escape
character is kept and scanning resumes at the next character, exactly like
the global regex replace `str.replace(/\u001b\[[0-9;]*m/g, '')`. -/
def stripAnsiGo : Nat → List Char → List Char
  | _, [] => []
  | 0, l => l
  | fuel + 1, c :: rest =>
      if c = '\x1b' then
        match ansiSeq rest with
        | some rem => stripAnsiGo fuel rem
        | none => c :: stripAnsiGo fuel rest
      else c :: stripAnsiGo fuel rest

/-- Source: `stripAnsi` in the compare action, src/index.js. -/
def stripAnsi (l : List Char) : List Char := stripAnsiGo l.length l

theorem stripAnsiGo_nil (N : Nat) : stripAnsiGo N [] = [] := by
  cases N <;> rfl

theorem stripAnsiGo_irrel : ∀ (N M : Nat) (l : List Char), l.length ≤ N → l.length ≤ M →
    stripAnsiGo N l = stripAnsiGo M l := by
  intro N
  induction N with
  | zero =>
      intro M l hN _
      have : l = [] := List.eq_nil_of_length_eq_zero (Nat.le_zero.mp hN)
      subst this
      rw [stripAnsiGo_nil, stripAnsiGo_nil]
  | succ N ih =>
      intro M l hN hM
      cases l with
      | nil => rw [stripAnsiGo_nil, stripAnsiGo_nil]
      | cons c rest =>
          cases M with
          | zero => simp at hM
          | succ M =>
              simp only [stripAnsiGo]
              by_cases hc : c = '\x1b'
              · rw [if_pos hc, if_pos hc]
                cases ha : ansiSeq rest with
                | some rem =>
                    have := ansiSeq_length rest rem ha
                    simp only [List.length_cons] at hN hM
                    exact ih M rem (by omega) (by omega)
                | none =>
                    simp only [List.length_cons] at hN hM
                    rw [ih M rest (by omega) (by omega)]
              · rw [if_neg hc, if_neg hc]
                simp only [List.length_cons] at hN hM
                rw [ih M rest (by omega) (by omega)]

theorem stripAnsi_nil : stripAnsi [] = [] := rfl

theorem stripAnsi_cons_ne {c : Char} (rest : List Char) (h : c ≠ '\x1b') :
    stripAnsi (c :: rest) = c :: stripAnsi rest := by
  show stripAnsiGo (rest.length + 1) (c :: rest) = c :: stripAnsiGo rest.length rest
  simp only [stripAnsiGo, if_neg h]

theorem stripAnsi_cons_esc_some {rest rem : List Char} (h : ansiSeq rest = some rem) :
    stripAnsi ('\x1b' :: rest) = stripAnsi rem := by
  show stripAnsiGo (rest.length + 1) ('\x1b' :: rest) = stripAnsiGo rem.length rem
  simp only [stripAnsiGo, if_pos rfl, h]
  exact stripAnsiGo_irrel rest.length rem.length rem
    (Nat.le_of_lt (ansiSeq_length rest rem h)) (le_refl _)

theorem stripAnsi_cons_esc_none {rest : List Char} (h : ansiSeq rest = none) :
    stripAnsi ('\x1b' :: rest) = '\x1b' :: stripAnsi rest := by
  show stripAnsiGo (rest.length + 1) ('\x1b' :: rest) = '\x1b' :: stripAnsiGo rest.length rest
  simp [stripAnsiGo, h]

theorem skipParams_spaces (n : Nat) : skipParams (List.replicate n ' ') = none := by
  cases n with
  | zero => rfl
  | succ n =>
      rw [List.replicate_succ]
      simp only [skipParams]
      rw [if_neg (by decide), if_neg (by decide)]

theorem skipParams_append_spaces (l : List Char) (n : Nat) :
    skipParams (l ++ List.replicate n ' ') =
      (skipParams l).map (· ++ List.replicate n ' ') := by
  induction l with
  | nil => simp [skipParams, skipParams_spaces]
  | cons c rest ih =>
      simp only [List.cons_append, skipParams]
      by_cases hm : c = 'm'
      · rw [if_pos hm, if_pos hm]; rfl
      · rw [if_neg hm, if_neg hm]
        by_cases hp : isParamChar c
        · rw [if_pos hp, if_pos hp]; exact ih
        · rw [if_neg hp, if_neg hp]; rfl

theorem ansiSeq_append_spaces (l : List Char) (n : Nat) :
    ansiSeq (l ++ List.replicate n ' ') = (ansiSeq l).map (· ++ List.replicate n ' ') := by
  cases l with
  | nil =>
      cases n with
      | zero => rfl
      | succ n =>
          rw [List.nil_append, List.replicate_succ]
          simp only [ansiSeq]
          rw [if_neg (by decide)]
          rfl
  | cons c rest =>
      simp only [List.cons_append, ansiSeq]
      by_cases h : c = '['
      · rw [if_pos h, if_pos h]; exact skipParams_append_spaces rest n
      · rw [if_neg h, if_neg h]; rfl

theorem stripAnsi_spaces (n : Nat) :
    stripAnsi (List.replicate n ' ') = List.replicate n ' ' := by
  induction n with
  | zero => rfl
  | succ n ih => rw [List.replicate_succ, stripAnsi_cons_ne _ (by decide), ih]

theorem stripAnsi_append_spaces_aux (n : Nat) :
    ∀ (N : Nat) (l : List Char), l.length ≤ N →
      stripAnsi (l ++ List.replicate n ' ') = stripAnsi l ++ List.replicate n ' ' := by
  intro N
  induction N with
  | zero =>
      intro l hl
      have : l = [] := List.eq_nil_of_length_eq_zero (Nat.le_zero.mp hl)
      subst this
      simp [stripAnsi_nil, stripAnsi_spaces]
  | succ N ih =>
      intro l hl
      cases l with
      | nil => simp [stripAnsi_nil, stripAnsi_spaces]
      | cons c rest =>
          simp only [List.length_cons] at hl
          by_cases hc : c = '\x1b'
          · subst hc
            rw [List.cons_append]
            cases ha : ansiSeq rest with
            | some rem =>
                have ha2 : ansiSeq (rest ++ List.replicate n ' ') =
                    some (rem ++ List.replicate n ' ') := by
                  rw [ansiSeq_append_spaces, ha]; rfl
                rw [stripAnsi_cons_esc_some ha2, stripAnsi_cons_esc_some ha]
                have hlen := ansiSeq_length rest rem ha
                exact ih rem (by omega)
            | none =>
                have ha2 : ansiSeq (rest ++ List.replicate n ' ') = none := by
                  rw [ansiSeq_append_spaces, ha]; rfl
                rw [stripAnsi_cons_esc_none ha2, stripAnsi_cons_esc_none ha,
                  ih rest (by omega), List.cons_append]
          · rw [List.cons_append, stripAnsi_cons_ne _ hc, stripAnsi_cons_ne _ hc,
              ih rest (by omega), List.cons_append]

theorem stripAnsi_append_spaces (l : List Char) (n : Nat) :
    stripAnsi (l ++ List.replicate n ' ') = stripAnsi l ++ List.replicate n ' ' :=
  stripAnsi_append_spaces_aux n l.length l (le_refl _)

/-- Visible length of a string: its length after stripping ANSI sequences
(`stripAnsi(str).length` in src/index.js). -/
def visibleLength (s : String) : Nat := (stripAnsi s.data).length

/-- Source: `padWithAnsi` in the compare action, src/index.js:
`str + ' '.repeat(Math.max(0, width - visibleLength))`. -/
def padWithAnsi (s : String) (width : Int) : String :=
  String.mk (s.data ++ List.replicate (max 0 (width - visibleLength s)).toNat ' ')

/-- C4: for every input string and every target width at least the string's
visible length, the padded result's visible length equals the target width
exactly, the padding being spaces on the right. -/
theorem padWithAnsi_visible_width (s : String) (w : Int)
    (h : (visibleLength s : Int) ≤ w) :
    (visibleLength (padWithAnsi s w) : Int) = w ∧
    (padWithAnsi s w).data = s.data ++ List.replicate (w - visibleLength s).toNat ' ' := by
  constructor
  · show (((stripAnsi (s.data ++ List.replicate (max 0 (w - visibleLength s)).toNat ' ')).length :
      Nat) : Int) = w
    rw [stripAnsi_append_spaces]
    simp only [List.length_append, List.length_replicate]
    unfold visibleLength at h ⊢
    omega
  · show s.data ++ List.replicate (max 0 (w - visibleLength s)).toNat ' ' =
      s.data ++ List.replicate (w - visibleLength s).toNat ' '
    have : max 0 (w - visibleLength s) = w - visibleLength s := by omega
    rw [this]

/-- Witness for C4: a bold-styled string of visible length 4 padded to
width 10 has visible length 10. -/
theorem padWithAnsi_visible_width_witness :
    ((visibleLength (String.mk
        ['\x1b', '[', '1', 'm', 'm', 'a', 'i', 'n', '\x1b', '[', '0', 'm']) : Int) ≤ 10) ∧
    (visibleLength (padWithAnsi (String.mk
        ['\x1b', '[', '1', 'm', 'm', 'a', 'i', 'n', '\x1b', '[', '0', 'm']) 10) : Int) = 10 :=
  ⟨by decide,
   (padWithAnsi_visible_width (String.mk
      ['\x1b', '[', '1', 'm', 'm', 'a', 'i', 'n', '\x1b', '[', '0', 'm']) 10 (by decide)).1⟩

/-- C9: `padWithAnsi` is total and never truncates — the input is always a
prefix of the result, and when the target width is at most the visible
length the input is returned unchanged (padding clamped at zero). -/
theorem padWithAnsi_no_truncate (s : String) (w : Int) :
    s.data <+: (padWithAnsi s w).data ∧
    (w ≤ (visibleLength s : Int) → padWithAnsi s w = s) := by
  constructor
  · exact ⟨List.replicate (max 0 (w - visibleLength s)).toNat ' ', rfl⟩
  · intro h
    unfold padWithAnsi
    have hz : (max 0 (w - visibleLength s)).toNat = 0 := by omega
    rw [hz, List.replicate_zero, List.append_nil]

/-- Witness for C9: a width smaller than the visible length returns the
input unchanged. -/
theorem padWithAnsi_no_truncate_witness :
    ((2 : Int) ≤ (visibleLength "main" : Int)) ∧ padWithAnsi "main" 2 = "main" :=
  ⟨by decide, (padWithAnsi_no_truncate "main" 2).2 (by decide)⟩

/-! ## The compare engine (src/index.js, compare action) -/

/-- A raw stats snapshot as delivered in JSON: each counter may be absent
(JavaScript `undefined`), JSON numbers are modelled as rationals. -/
structure RawStats where
  total_decisions : Option ℚ
  buy_count : Option ℚ
  hold_count : Option ℚ
  trades_executed : Option ℚ
deriving DecidableEq

/-- JavaScript `x || 0` on a possibly-absent number: absent and `0` both
give `0`. -/
def orZero : Option ℚ → ℚ
  | none => 0
  | some q => q

/-- JavaScript numeric truthiness of a possibly-absent number: absent and
`0` are falsy. -/
def truthy : Option ℚ → Bool
  | none => false
  | some q => if q = 0 then false else true

/-- JavaScript division on possibly-absent numbers: any absent operand gives
NaN (modelled `none`); the zero-denominator case is modelled `none` as well
and is unreachable under the caller's truthiness guard. -/
def jsDiv : Option ℚ → Option ℚ → Option ℚ
  | some a, some b => if b = 0 then none else some (a / b)
  | _, _ => none

/-- JavaScript `>` where either side may be NaN: any NaN comparison is
false. -/
def gtO : Option ℚ → Option ℚ → Bool
  | some a, some b => decide (b < a)
  | _, _ => false

inductive VolumeVerdict where
  | branch1
  | branch2
  | tie
deriving DecidableEq

inductive RateMsg where
  | branch1Better
  | branch2Better
deriving DecidableEq

/-- Source: the trade-volume analysis of the compare action —
`(s1.trades_executed || 0) > (s2.trades_executed || 0)` and its mirror,
with a tie message otherwise. -/
def volumeVerdict (s1 s2 : RawStats) : VolumeVerdict :=
  if orZero s2.trades_executed < orZero s1.trades_executed then .branch1
  else if orZero s1.trades_executed < orZero s2.trades_executed then .branch2
  else .tie

/-- Source: the success-rate analysis of the compare action — guarded by
`s1.total_decisions && s2.total_decisions`, rates are
`(trades_executed / total_decisions) * 100`, and only a strictly greater
rate is reported (no message on a tie). -/
def rateVerdict (s1 s2 : RawStats) : Option RateMsg :=
  if truthy s1.total_decisions && truthy s2.total_decisions then
    let rate1 := (jsDiv s1.trades_executed s1.total_decisions).map (· * 100)
    let rate2 := (jsDiv s2.trades_executed s2.total_decisions).map (· * 100)
    if gtO rate1 rate2 then some .branch1Better
    else if gtO rate2 rate1 then some .branch2Better
    else none
  else none

/-- Source: the four fixed metric rows of the comparison table, each counter
defaulted with `|| 0`. -/
def metricsRows (s1 s2 : RawStats) : List (String × ℚ × ℚ) :=
  [("Total Decisions", orZero s1.total_decisions, orZero s2.total_decisions),
   ("BUY Signals", orZero s1.buy_count, orZero s2.buy_count),
   ("HOLD Signals", orZero s1.hold_count, orZero s2.hold_count),
   ("Trades Executed", orZero s1.trades_executed, orZero s2.trades_executed)]

/-- Result of one `getStats` fetch: the spread response (`stats` may be
absent) tagged with the branch name; the whole fetch is `none` on failure
(the catch path returns `null`). -/
structure FetchResult where
  stats : Option RawStats
  branch_name : String
deriving DecidableEq

inductive CompareOutcome where
  | fetchFailure
  | noMetrics
  | report (rows : List (String × ℚ × ℚ)) (volume : VolumeVerdict) (rate : Option RateMsg)
deriving DecidableEq

/-- Source: the compare action after both `getStats` fetches have settled:
`if (!result1 || !result2)` aborts, `if (!result1.stats || !result2.stats)`
reports missing metrics, otherwise the table and the analysis render. -/
def compareAction (r1 r2 : Option FetchResult) : CompareOutcome :=
  match r1, r2 with
  | some a, some b =>
      match a.stats, b.stats with
      | some s1, some s2 =>
          .report (metricsRows s1 s2) (volumeVerdict s1 s2) (rateVerdict s1 s2)
      | _, _ => .noMetrics
  | _, _ => .fetchFailure

/-- C3: if either fetch fails, no comparison table is rendered and the other
branch's result is discarded — the compare command reports failure as a
whole, with no partial-result path. -/
theorem compare_abort_on_fetch_failure (r1 r2 : Option FetchResult)
    (h : r1 = none ∨ r2 = none) :
    compareAction r1 r2 = .fetchFailure ∧
    ∀ rows volume rate, compareAction r1 r2 ≠ .report rows volume rate := by
  have hf : compareAction r1 r2 = .fetchFailure := by
    rcases h with h | h
    · subst h; cases r2 <;> rfl
    · subst h; cases r1 <;> rfl
  exact ⟨hf, fun rows volume rate hcontra => by rw [hf] at hcontra; cases hcontra⟩

/-- Witness for C3: branch B's fetch succeeded with full metrics, branch A's
failed — the comparison still aborts. -/
theorem compare_abort_on_fetch_failure_witness :
    ((none : Option FetchResult) = none ∨
      (some ⟨some ⟨some 20, some 8, some 12, some 9⟩, "dev"⟩ : Option FetchResult) = none) ∧
    compareAction none (some ⟨some ⟨some 20, some 8, some 12, some 9⟩, "dev"⟩) =
      .fetchFailure :=
  ⟨Or.inl rfl,
   (compare_abort_on_fetch_failure none
     (some ⟨some ⟨some 20, some 8, some 12, some 9⟩, "dev"⟩) (Or.inl rfl)).1⟩

/-- C5: the branch with strictly more trades is the trade-volume leader and
ties report none, whatever the two `total_decisions` fields are (absent or
zero included, since the volume analysis runs unconditionally); and when
both `total_decisions` are non-zero the branch with the strictly greater
`trades_executed / total_decisions` rate is named (equal rates report no
leader). -/
theorem compare_analysis (d1 t1 d2 t2 : ℚ) (b1 h1 b2 h2 : Option ℚ)
    (hd1 : d1 ≠ 0) (hd2 : d2 ≠ 0) :
    (∀ u1 u2 : Option ℚ,
      volumeVerdict ⟨u1, b1, h1, some t1⟩ ⟨u2, b2, h2, some t2⟩ =
        if t2 < t1 then .branch1 else if t1 < t2 then .branch2 else .tie) ∧
    (rateVerdict ⟨some d1, b1, h1, some t1⟩ ⟨some d2, b2, h2, some t2⟩ =
      if t2 / d2 < t1 / d1 then some .branch1Better
      else if t1 / d1 < t2 / d2 then some .branch2Better
      else none) := by
  constructor
  · intro u1 u2
    simp [volumeVerdict, orZero]
  · have key : ∀ x y : ℚ, (x * 100 < y * 100) ↔ (x < y) := fun x y =>
      mul_lt_mul_right (by norm_num : (0 : ℚ) < 100)
    simp [rateVerdict, truthy, jsDiv, gtO, hd1, hd2, key]

/-- Witness for C5, on the spec's end-to-end scenario: A has 3 trades of 10
decisions (30%), B has 9 trades of 20 decisions (45%) — B leads on both
analyses. -/
theorem compare_analysis_witness :
    ((10 : ℚ) ≠ 0) ∧ ((20 : ℚ) ≠ 0) ∧
    volumeVerdict ⟨some 10, some 4, some 6, some 3⟩ ⟨some 20, some 8, some 12, some 9⟩ =
      .branch2 ∧
    rateVerdict ⟨some 10, some 4, some 6, some 3⟩ ⟨some 20, some 8, some 12, some 9⟩ =
      some .branch2Better := by
  have h := compare_analysis 10 3 20 9 (some 4) (some 6) (some 8) (some 12)
    (by norm_num) (by norm_num)
  refine ⟨by norm_num, by norm_num, ?_, ?_⟩
  · rw [h.1 (some 10) (some 20)]; norm_num
  · rw [h.2]; norm_num

/-- Replace every absent counter of a snapshot by an explicit `0`. -/
def normalizeStats (s : RawStats) : RawStats :=
  ⟨some (orZero s.total_decisions), some (orZero s.buy_count),
   some (orZero s.hold_count), some (orZero s.trades_executed)⟩

/-- C10: a counter absent from a fetched snapshot is treated exactly as `0`
both in the table rows and in the trade-volume analysis (both are total
functions, so missing counters never make them fail). -/
theorem compare_missing_counters_as_zero (s1 s2 : RawStats) :
    metricsRows s1 s2 = metricsRows (normalizeStats s1) (normalizeStats s2) ∧
    volumeVerdict s1 s2 = volumeVerdict (normalizeStats s1) (normalizeStats s2) := by
  constructor
  · simp [metricsRows, normalizeStats, orZero]
  · simp [volumeVerdict, normalizeStats, orZero]

/-! ## Remote error handling (catch blocks of the five remote operations) -/

/-- The shape of an axios error as consumed by the catch blocks:
`err.response?.status`, `err.response?.data?.error`, `err.message`. -/
structure JsError where
  status : Option Nat
  dataError : Option String
  message : String
deriving DecidableEq

/-- JavaScript `err.response?.data?.error || err.message`: the body's error
string when present and non-empty (as empty strings are falsy), else the
transport's own message. -/
def errMsgOf (e : JsError) : String :=
  match e.dataError with
  | some s => if s = "" then e.message else s
  | none => e.message

/-- How a failed remote call is reported to the user. -/
inductive FailureReport where
  | notFound (branch : String)
  | transport (msg : String)
deriving DecidableEq

def FailureReport.isNotFound : FailureReport → Bool
  | notFound _ => true
  | transport _ => false

/-- Source: catch block of `getStats` — 404 is reported as a missing agent,
anything else as a transport error. -/
def getStatsHandler (branch : String) (e : JsError) : FailureReport :=
  if e.status = some 404 then .notFound branch
  else .transport ("Error fetching stats for " ++ branch ++ ": " ++ errMsgOf e)

/-- Source: catch block of `secrets check`. -/
def checkSecretsHandler (branch : String) (e : JsError) : FailureReport :=
  if e.status = some 404 then .notFound branch
  else .transport ("Error checking secrets: " ++ errMsgOf e)

/-- Source: catch block of `restart`. -/
def restartHandler (branch : String) (e : JsError) : FailureReport :=
  if e.status = some 404 then .notFound branch
  else .transport ("Error restarting agent: " ++ errMsgOf e)

/-- Source: catch block of `secrets set` — no status check at all. -/
def setSecretHandler (e : JsError) : FailureReport :=
  .transport ("Error setting secret: " ++ errMsgOf e)

/-- Source: catch block of `logs` — no status check at all. -/
def logsHandler (e : JsError) : FailureReport :=
  .transport ("Error fetching logs: " ++ errMsgOf e)

/-- Counterexample to C6: on an HTTP 404 error, the `secrets set` and `logs`
catch blocks do not produce the not-found report (unlike `getStats` on the
same error) — so not every remote operation distinguishes not-found. -/
theorem setSecret_404_not_distinguished :
    (setSecretHandler ⟨some 404, none, "Request failed with status code 404"⟩).isNotFound
      = false ∧
    (logsHandler ⟨some 404, none, "Request failed with status code 404"⟩).isNotFound
      = false ∧
    (getStatsHandler "dev" ⟨some 404, none, "Request failed with status code 404"⟩).isNotFound
      = true := by
  refine ⟨rfl, rfl, ?_⟩
  rw [getStatsHandler, if_pos rfl]
  rfl

/-- C6 amended: `getStats`, `checkSecrets` and `restart` distinguish the HTTP
not-found failure from all other failures, which collapse into a single
transport-style message extracted from the response body when present and
non-empty, else the transport's own message; `setSecret` and `getLogs`
collapse every failure, including not-found, into that transport-style
message. -/
theorem remote_error_taxonomy (b : String) (e : JsError) :
    ((getStatsHandler b e).isNotFound = true ↔ e.status = some 404) ∧
    ((checkSecretsHandler b e).isNotFound = true ↔ e.status = some 404) ∧
    ((restartHandler b e).isNotFound = true ↔ e.status = some 404) ∧
    (setSecretHandler e).isNotFound = false ∧
    (logsHandler e).isNotFound = false ∧
    (e.status ≠ some 404 →
      getStatsHandler b e =
        .transport ("Error fetching stats for " ++ b ++ ": " ++ errMsgOf e)) ∧
    (∀ s, e.dataError = some s → s ≠ "" → errMsgOf e = s) ∧
    (e.dataError = none → errMsgOf e = e.message) := by
  refine ⟨?_, ?_, ?_, rfl, rfl, ?_, ?_, ?_⟩
  · unfold getStatsHandler
    split <;> simp [FailureReport.isNotFound, *]
  · unfold checkSecretsHandler
    split <;> simp [FailureReport.isNotFound, *]
  · unfold restartHandler
    split <;> simp [FailureReport.isNotFound, *]
  · intro h
    unfold getStatsHandler
    rw [if_neg h]
  · intro s hs hne
    unfold errMsgOf
    rw [hs]
    simp [hne]
  · intro h
    unfold errMsgOf
    rw [h]

/-- Witness for C6 (amended) at a concrete non-404 error whose body carries a
message. -/
theorem remote_error_taxonomy_witness :
    ((⟨some 500, some "boom", "HTTP 500"⟩ : JsError).status ≠ some 404) ∧
    getStatsHandler "dev" ⟨some 500, some "boom", "HTTP 500"⟩ =
      .transport ("Error fetching stats for " ++ "dev" ++ ": "
        ++ errMsgOf ⟨some 500, some "boom", "HTTP 500"⟩) ∧
    errMsgOf ⟨some 500, some "boom", "HTTP 500"⟩ = "boom" :=
  ⟨by decide,
   (remote_error_taxonomy "dev" ⟨some 500, some "boom", "HTTP 500"⟩).2.2.2.2.2.1 (by decide),
   (remote_error_taxonomy "dev" ⟨some 500, some "boom", "HTTP 500"⟩).2.2.2.2.2.2.1
     "boom" rfl (by decide)⟩

/-! ## Exit-code discipline (C7) and the init command (C8) -/

/-- Whitespace characters for the purpose of `String.prototype.trim`. -/
def isSpaceChar (c : Char) : Bool :=
  decide (c = ' ') || decide (c = '\t') || decide (c = '\n') || decide (c = '\r')

/-- JavaScript `stdout.trim()` over the character list. -/
def jsTrim (l : List Char) : List Char :=
  ((l.dropWhile isSpaceChar).reverse.dropWhile isSpaceChar).reverse

/-- The local and remote context one command invocation runs in: the parsed
config file when present, the raw stdout of `git rev-parse --abbrev-ref
HEAD`, and the outcome of the stats request when one is made. -/
structure Env where
  config : Option String
  gitStdout : String
  remote : Except JsError (Option RawStats)

/-- Source: the `stats` command path — `getConfig` exits 1 when the config
file is missing, `getCurrentBranch` exits 1 when the trimmed branch is
empty, and every remote outcome (success or caught failure) returns
normally, exiting 0. -/
def runStats (env : Env) : Nat :=
  match env.config with
  | none => 1
  | some _ =>
      if jsTrim env.gitStdout.data = [] then 1
      else
        match env.remote with
        | Except.ok _ => 0
        | Except.error _ => 0

/-- C7: the process exits 1 exactly when the config file is missing or the
current branch cannot be determined; every remote failure is caught and the
process exits 0. -/
theorem exit_code_discipline (env : Env) :
    (runStats env = 1 ↔ env.config = none ∨ jsTrim env.gitStdout.data = []) ∧
    (∀ e, env.remote = Except.error e → env.config ≠ none →
      jsTrim env.gitStdout.data ≠ [] → runStats env = 0) := by
  obtain ⟨cfg, git, remote⟩ := env
  constructor
  · cases cfg with
    | none => simp [runStats]
    | some c =>
        by_cases hb : jsTrim git.data = []
        · simp [runStats, hb]
        · cases remote <;> simp [runStats, hb]
  · intro e he hc hb
    cases cfg with
    | none => exact absurd rfl hc
    | some c =>
        subst he
        simp [runStats, hb]

/-- Witness for C7: a configured repo on branch `main` whose stats request
fails with a 404 still exits 0. -/
theorem exit_code_discipline_witness :
    ((⟨some "https://github.com/user/repo.git", "main\n",
        Except.error ⟨some 404, none, "nf"⟩⟩ : Env).remote =
      Except.error ⟨some 404, none, "nf"⟩) ∧
    runStats ⟨some "https://github.com/user/repo.git", "main\n",
      Except.error ⟨some 404, none, "nf"⟩⟩ = 0 :=
  ⟨rfl,
   (exit_code_discipline ⟨some "https://github.com/user/repo.git", "main\n",
      Except.error ⟨some 404, none, "nf"⟩⟩).2 ⟨some 404, none, "nf"⟩ rfl
     (by decide) (by decide)⟩

/-- Outcome of the `init` command. -/
inductive InitOutcome where
  | alreadyInit (existing_repo_url : String)
  | missingUrl
  | created (repo_url : String)
deriving DecidableEq

/-- Source: the `init` action — when the config file exists it is read and
reported and the command returns without writing; otherwise the prompted
URL (empty means rejected) decides whether a config is written. -/
def initAction (config : Option String) (promptAnswer : String) :
    Option String × InitOutcome :=
  match config with
  | some existing => (some existing, .alreadyInit existing)
  | none =>
      if promptAnswer = "" then (none, .missingUrl)
      else (some promptAnswer, .created promptAnswer)

/-- C8: running `init` with an existing config file is a no-op on state —
the config and its repo_url are unchanged and reported back, never
overwritten. -/
theorem init_noop_when_configured (cfg : Option String) (url answer : String)
    (h : cfg = some url) :
    initAction cfg answer = (cfg, .alreadyInit url) := by
  subst h
  rfl

/-- Witness for C8: re-running `init` on a configured repository leaves the
config untouched whatever the prompt would answer. -/
theorem init_noop_when_configured_witness :
    ((some "https://github.com/user/repo.git" : Option String) =
      some "https://github.com/user/repo.git") ∧
    initAction (some "https://github.com/user/repo.git") "https://github.com/other/x.git" =
      (some "https://github.com/user/repo.git",
       .alreadyInit "https://github.com/user/repo.git") :=
  ⟨rfl,
   init_noop_when_configured (some "https://github.com/user/repo.git")
     "https://github.com/user/repo.git" "https://github.com/other/x.git" rfl⟩

end MantleForge
